import Mathlib

/-!
A model of `dnscheck.go`, the DNS check cloud function.

The file embeds the one source file of the repository:

* the data types `JsonError`, `CheckServer`, `DNSResponse`, `Response`;
* `resolveDomain`, against an explicit description of what the network answers;
* `readDNSList`, against an explicit description of what `csv.Reader.Read` yields;
* `DNSCheck`: the sequential prelude as a function and the fan-out
  (goroutines, `sync.Mutex`, `sync.WaitGroup`) as an interleaving step machine.

Go strings are modelled by `String`, errors by their description (`err.Error()`).
Library code (`net/http`, `encoding/csv`, `os`, `github.com/miekg/dns`, `sync`)
is represented by small models of the behaviour the source relies on; every
such model says so in its doc comment.
-/

namespace dnscheck

/-! ## Data model (dnscheck.go, lines 17-35) -/

structure JsonError where
  Code : Int
  Message : String
  deriving DecidableEq, Repr

structure CheckServer where
  Name : String
  IP : String
  deriving DecidableEq, Repr

structure DNSResponse where
  Server : String
  Response : String
  deriving DecidableEq, Repr

structure Response where
  Domain : String
  Responses : List DNSResponse
  deriving DecidableEq, Repr

/-! ## Library models: strings -/

/-- Library model of `unicode.IsSpace`: the Latin-1 white space characters and
the characters of the Unicode `White_Space` property outside Latin-1. -/
def isSpace (c : Char) : Bool :=
  let r := c.toNat
  if r ≤ 0xFF then
    r = 0x09 || r = 0x0A || r = 0x0B || r = 0x0C || r = 0x0D || r = 0x20 || r = 0x85 || r = 0xA0
  else
    r = 0x1680 || (0x2000 ≤ r && r ≤ 0x200A) || r = 0x2028 || r = 0x2029 || r = 0x202F
      || r = 0x205F || r = 0x3000

/-- Library model of `strings.TrimSpace`: `TrimRightFunc (TrimLeftFunc s IsSpace) IsSpace`. -/
def TrimSpace (s : String) : String :=
  String.mk ((s.data.dropWhile isSpace).rdropWhile isSpace)

/-- Library model of `strings.Join`: the empty string for no element, the
element itself for one, otherwise the first element followed by separator and
element for each further one. -/
def Join (elems : List String) (sep : String) : String :=
  match elems with
  | [] => ""
  | [e] => e
  | e :: rest => rest.foldl (fun b s => b ++ sep ++ s) e

/-! ## Library models: the DNS client (github.com/miekg/dns) -/

/-- The payload `A` of a `dns.A` record (`net.IP`): the four octets of an IPv4
address (each used modulo 256), or nil for a record that carries no data. -/
inductive IP where
  | nil
  | v4 (a b c d : Nat)
  deriving DecidableEq, Repr

/-- Library model of `net.IP.String`: `"<nil>"` for the nil address, dotted
decimal for four octets. -/
def IP.String : IP → String
  | IP.nil => "<nil>"
  | IP.v4 a b c d =>
    toString (a % 256) ++ "." ++ toString (b % 256) ++ "." ++
      toString (c % 256) ++ "." ++ toString (d % 256)

/-- A resource record of an answer section (`dns.RR`): an address record
`*dns.A`, or a record of another dynamic type (`*dns.CNAME`, or any other,
identified by its type code). -/
inductive RR where
  | A (name : String) (A : IP)
  | CNAME (name : String) (target : String)
  | other (rrtype : Nat) (name : String)
  deriving DecidableEq, Repr

structure Question where
  Name : String
  Qtype : Nat
  Qclass : Nat
  deriving DecidableEq, Repr

/-- The fields of `dns.Msg` the program reads or sets. -/
structure Msg where
  Id : Nat
  RecursionDesired : Bool
  Question : List Question
  Answer : List RR
  deriving DecidableEq, Repr

/-- The fields of `dns.Client` the program sets; `Timeout` is a
`time.Duration`, a number of nanoseconds. -/
structure Client where
  Timeout : Int
  deriving DecidableEq, Repr

/-- The constant `time.Second`, in nanoseconds. -/
def Second : Int := 1000000000

/-- The constant `dns.TypeA`. -/
def TypeA : Nat := 1

/-- The constant `dns.ClassINET`. -/
def ClassINET : Nat := 1

/-- One call of `Client.Exchange`: the client, the message and the destination. -/
structure ExchangeCall where
  client : Client
  m : Msg
  address : String
  deriving DecidableEq, Repr

/-- What the program does to the outside world, in order. -/
inductive Event where
  | osOpen (name : String)
  | csvRead (name : String)
  | exchange (call : ExchangeCall)
  deriving DecidableEq, Repr

abbrev Trace := List Event

/-- The behaviour of the outside world towards one call of `resolveDomain`:
the identifier `dns.Id()` draws, and for every exchange either the reply or the
description of the error (time-out, refused connection, malformed reply, ...). -/
structure Env where
  id : Nat
  reply : Client → Msg → String → Except String Msg

/-- Library model of `(*dns.Msg).SetQuestion`: a fresh identifier, recursion
desired and a question section of exactly one question of class INET. -/
def Msg.SetQuestion (m : Msg) (env : Env) (z : String) (t : Nat) : Msg :=
  { m with Id := env.id % 65536, RecursionDesired := true, Question := [⟨z, t, ClassINET⟩] }

/-- Library model of `(*dns.Client).Exchange`: one synchronous exchange, whose
outcome the environment decides; the call is recorded. -/
def Client.Exchange (c : Client) (env : Env) (m : Msg) (address : String) (tr : Trace) :
    Except String Msg × Trace :=
  (env.reply c m address, tr ++ [Event.exchange ⟨c, m, address⟩])

/-! ## resolveDomain (dnscheck.go, lines 99-124) -/

def resolveDomain (env : Env) (domain : String) (server : String) (tr : Trace) :
    String × Trace :=
  let client : Client := { Timeout := 1 * Second }
  let msg : Msg := Msg.SetQuestion ⟨0, false, [], []⟩ env (domain ++ ".") TypeA
  match client.Exchange env msg (server ++ ":53") tr with
  | (Except.error err, tr) => (err, tr)
  | (Except.ok r, tr) =>
    if r.Answer.length = 0 then
      ("no results", tr)
    else
      let result : List String := r.Answer.foldl
        (fun result ans =>
          match ans with
          | RR.A _ rec => result ++ [rec.String]
          | _ => result)
        []
      (Join result ", ", tr)

/-! ## Library models: the endpoint file (os, encoding/csv) -/

/-- What one call of `csv.Reader.Read` yields before the end of the input: a
record, and possibly an error other than `io.EOF` (a parse error, a wrong
number of fields, a failed read). -/
structure ReadResult where
  record : List String
  err : Option String
  deriving DecidableEq, Repr

/-- An opened file, seen through the records `encoding/csv` reads from it. -/
structure File where
  name : String
  pending : List ReadResult
  deriving DecidableEq, Repr

/-- The errors `csv.Reader.Read` returns: the sentinel `io.EOF`, or another error. -/
inductive ReadError where
  | EOF
  | other (msg : String)
  deriving DecidableEq, Repr

/-- Library model of `csv.NewReader`. -/
def NewReader (input : File) : File := input

/-- Library model of `(*csv.Reader).Read`: the next pending result, then
`io.EOF` once the input is exhausted; the call is recorded. -/
def File.Read (r : File) (tr : Trace) : (List String × Option ReadError) × File × Trace :=
  match r.pending with
  | [] => (([], some ReadError.EOF), r, tr ++ [Event.csvRead r.name])
  | res :: rest =>
    ((res.record, res.err.map ReadError.other), { r with pending := rest },
      tr ++ [Event.csvRead r.name])

/-- The file system as `os.Open` sees it: a file, or the description of the error. -/
structure FS where
  files : String → Except String File

/-- Library model of `os.Open`; the call is recorded. -/
def FS.Open (fs : FS) (name : String) (tr : Trace) : Except String File × Trace :=
  (fs.files name, tr ++ [Event.osOpen name])

/-! ## readDNSList (dnscheck.go, lines 126-148) -/

/-- The `for` loop of `readDNSList`, started with the list gathered so far. -/
def readDNSList.loop (r : File) (list : List CheckServer) (tr : Trace) :
    (List CheckServer × Option String) × Trace :=
  let res := r.Read tr
  let record := res.1.1
  let err := res.1.2
  if h : err = some ReadError.EOF then
    ((list, none), res.2.2)
  else if err ≠ none ∨ record.length < 2 then
    ((list, some "could not parse dns list"), res.2.2)
  else
    readDNSList.loop res.2.1
      (list ++ [⟨TrimSpace (record.getD 0 ""), TrimSpace (record.getD 1 "")⟩]) res.2.2
termination_by r.pending.length
decreasing_by
  have h' : (r.Read tr).1.2 ≠ some ReadError.EOF := h
  cases hp : r.pending with
  | nil => simp [File.Read, hp] at h'
  | cons res rest => simp [File.Read, hp]

def readDNSList (input : File) (tr : Trace) : (List CheckServer × Option String) × Trace :=
  readDNSList.loop (NewReader input) [] tr

/-! ## Library models: the HTTP boundary (net/http, encoding/json) -/

/-- The query of the request URL (`url.Values`): for every key its values, in order. -/
structure Values where
  values : String → List String

/-- Library model of `url.Values.Get`: the first value of the key, or the
empty string when there is none. -/
def Values.Get (v : Values) (key : String) : String :=
  match v.values key with
  | [] => ""
  | x :: _ => x

/-- The part of `http.Request` the program reads: `r.URL.Query()`. -/
structure Request where
  Query : Values

/-- A value handed to `json.NewEncoder(w).Encode`; the JSON text is not modelled. -/
inductive Body where
  | jsonError (e : JsonError)
  | response (r : Response)
  deriving DecidableEq, Repr

/-- The observable state of an `http.ResponseWriter`: the header map, the
status code once it is written, and the values encoded to the body. -/
structure ResponseWriter where
  header : List (String × String)
  status : Option Int
  body : List Body
  deriving DecidableEq, Repr

/-- Library model of `w.Header().Set`. -/
def ResponseWriter.HeaderSet (w : ResponseWriter) (key value : String) : ResponseWriter :=
  { w with header := w.header.filter (fun kv => kv.1 ≠ key) ++ [(key, value)] }

/-- Library model of `w.WriteHeader`: the first status code written stays. -/
def ResponseWriter.WriteHeader (w : ResponseWriter) (statusCode : Int) : ResponseWriter :=
  { w with status := some (w.status.getD statusCode) }

/-- Library model of `json.NewEncoder(w).Encode(v)`: writing to the body
writes status 200 first when no status was written. -/
def ResponseWriter.Encode (w : ResponseWriter) (v : Body) : ResponseWriter :=
  { w with status := some (w.status.getD 200), body := w.body ++ [v] }

/-- A response writer nothing was written to. -/
def ResponseWriter.new : ResponseWriter := ⟨[], none, []⟩

/-! ## writeJsonError (dnscheck.go, lines 94-97) -/

def writeJsonError (w : ResponseWriter) (jsonError : JsonError) : ResponseWriter :=
  let w := w.WriteHeader jsonError.Code
  w.Encode (Body.jsonError jsonError)

/-! ## DNSCheck, the fan-out (dnscheck.go, lines 68-91)

The goroutines and the handler are threads of an interleaving machine. Each
step is one access to shared state: a `sync` operation, the read or the write
of `responses`, the exchange with the network, a write to the response. The
statement `responses = append(responses, ...)` is two steps, the read of the
slice and the write of the longer one, so that an update is lost when two
goroutines interleave there without the mutex. -/

/-- Where a goroutine `func(s CheckServer)` of lines 74-83 stands. -/
inductive GoPc where
  /-- Line 76, before `resolveDomain(domain, s.IP)`. -/
  | resolve
  /-- Line 77, before `lock.Lock()`. -/
  | lock (resp : String)
  /-- Line 79, holding the lock, before reading `responses`. -/
  | load (resp : String)
  /-- Line 79, before writing `append(old, ...)` to `responses`. -/
  | store (resp : String) (old : List DNSResponse)
  /-- Returning, before the deferred `lock.Unlock()`. -/
  | unlock
  /-- Returning, before the deferred `wg.Done()`. -/
  | done
  /-- The goroutine has ended. -/
  | exited
  deriving DecidableEq, Repr

/-- A started goroutine: its argument `s`, the behaviour of the network
towards its exchange, and where it stands. -/
structure Goroutine where
  s : CheckServer
  env : Env
  pc : GoPc

/-- Where the handler stands in lines 71-91. -/
inductive MainPc where
  /-- Line 71, before `wg.Add(len(list))`. -/
  | add
  /-- Line 73, the `range` loop with the elements still to visit. -/
  | range (rest : List CheckServer)
  /-- Line 86, in `wg.Wait()`. -/
  | wait
  /-- Line 87, before `w.WriteHeader(200)`. -/
  | writeHeader
  /-- Line 88, before `Encode`. -/
  | encode
  /-- The handler has returned. -/
  | returned
  deriving DecidableEq, Repr

/-- The state of one run of lines 68-91: the locals `domain` and `list`, the
shared `lock`, `wg` and `responses`, the goroutines started so far, the
response writer, the trace, and whether a panic or fatal error has occurred. -/
structure State where
  domain : String
  list : List CheckServer
  pc : MainPc
  lock : Bool
  wg : Int
  responses : List DNSResponse
  goroutines : List Goroutine
  w : ResponseWriter
  tr : Trace
  crashed : Bool

/-- The state at line 68: zero values for `lock`, `wg` and `responses`. -/
def State.init (domain : String) (list : List CheckServer) (w : ResponseWriter) (tr : Trace) :
    State :=
  ⟨domain, list, MainPc.add, false, 0, [], [], w, tr, false⟩

/-- A thread: the handler, or the goroutine started for the `i`-th endpoint. -/
inductive Tid where
  | main
  | go (i : Nat)
  deriving DecidableEq, Repr

/-- One step of the handler; `net i` is the behaviour of the network towards
the goroutine started for the `i`-th endpoint. -/
def stepMain (net : Nat → Env) (s : State) : Option State :=
  match s.pc with
  | MainPc.add =>
    if s.wg + s.list.length < 0 then some { s with crashed := true }
    else some { s with wg := s.wg + s.list.length, pc := MainPc.range s.list }
  | MainPc.range [] => some { s with pc := MainPc.wait }
  | MainPc.range (e :: rest) =>
    some { s with
      goroutines := s.goroutines ++ [⟨e, net s.goroutines.length, GoPc.resolve⟩],
      pc := MainPc.range rest }
  | MainPc.wait => if s.wg = 0 then some { s with pc := MainPc.writeHeader } else none
  | MainPc.writeHeader => some { s with w := s.w.WriteHeader 200, pc := MainPc.encode }
  | MainPc.encode =>
    some { s with w := s.w.Encode (Body.response ⟨s.domain, s.responses⟩), pc := MainPc.returned }
  | MainPc.returned => none

/-- One step of the goroutine at index `i`. `Lock` blocks while the mutex is
held; `Unlock` of a free mutex and a negative counter are fatal. -/
def stepGo (s : State) (i : Nat) : Option State :=
  match s.goroutines[i]? with
  | none => none
  | some g =>
    match g.pc with
    | GoPc.resolve =>
      let res := resolveDomain g.env s.domain g.s.IP s.tr
      some { s with tr := res.2, goroutines := s.goroutines.set i { g with pc := GoPc.lock res.1 } }
    | GoPc.lock resp =>
      if s.lock then none
      else some { s with lock := true, goroutines := s.goroutines.set i { g with pc := GoPc.load resp } }
    | GoPc.load resp =>
      some { s with goroutines := s.goroutines.set i { g with pc := GoPc.store resp s.responses } }
    | GoPc.store resp old =>
      some { s with
        responses := old ++ [⟨g.s.Name, resp⟩],
        goroutines := s.goroutines.set i { g with pc := GoPc.unlock } }
    | GoPc.unlock =>
      if s.lock then
        some { s with lock := false, goroutines := s.goroutines.set i { g with pc := GoPc.done } }
      else some { s with crashed := true }
    | GoPc.done =>
      if s.wg - 1 < 0 then some { s with crashed := true }
      else some { s with wg := s.wg - 1, goroutines := s.goroutines.set i { g with pc := GoPc.exited } }
    | GoPc.exited => none

/-- One step of a thread; `none` when the thread cannot move (it is blocked,
it has ended, or the program has crashed). -/
def step (net : Nat → Env) (s : State) (t : Tid) : Option State :=
  if s.crashed then none
  else
    match t with
    | Tid.main => stepMain net s
    | Tid.go i => stepGo s i

/-- The states an execution can reach from `s₀`, whatever the interleaving. -/
inductive Reachable (net : Nat → Env) (s₀ : State) : State → Prop where
  | init : Reachable net s₀ s₀
  | next {s s' : State} (t : Tid) : Reachable net s₀ s → step net s t = some s' →
      Reachable net s₀ s'

/-- The threads of a state. -/
def tids (s : State) : List Tid :=
  Tid.main :: (List.range s.goroutines.length).map Tid.go

/-- The states one step away, one for every thread that can move. -/
def successors (net : Nat → Env) (s : State) : List State :=
  (tids s).filterMap (step net s)

/-- The execution under a scheduler: at every step the scheduler picks, by a
number, one of the threads that can move; the run stops when none can. -/
def run (net : Nat → Env) (sched : Nat → Nat) : Nat → State → State
  | 0, s => s
  | fuel + 1, s =>
    match successors net s with
    | [] => s
    | s' :: rest => run net sched fuel (((s' :: rest)[sched fuel % (rest.length + 1)]?).getD s')

/-- The number of steps lines 68-91 take for `n` endpoints. -/
def steps (n : Nat) : Nat := 7 * n + 5

/-! ## DNSCheck (dnscheck.go, lines 37-92) -/

/-- What lines 38-66 lead to: a response already written, or the fan-out. -/
inductive Started where
  | responded (w : ResponseWriter) (tr : Trace)
  | fanOut (s : State)

/-- Lines 38-66 of `DNSCheck`. -/
def DNSCheck.start (fs : FS) (w : ResponseWriter) (r : Request) (tr : Trace) : Started :=
  let w := w.HeaderSet "Access-Control-Allow-Origin" "*"
  let w := w.HeaderSet "Content-Type" "application/json"
  let domain := r.Query.Get "domain"
  if domain = "" then
    Started.responded (writeJsonError w ⟨400, "you must provide the domain"⟩) tr
  else
    match fs.Open "./list.csv" tr with
    | (Except.error err, tr) => Started.responded (writeJsonError w ⟨500, err⟩) tr
    | (Except.ok file, tr) =>
      match readDNSList file tr with
      | ((_, some err), tr) => Started.responded (writeJsonError w ⟨500, err⟩) tr
      | ((list, none), tr) => Started.fanOut (State.init domain list w tr)

/-- The handler `DNSCheck` run to its end under a scheduler: the response
written and the trace of what was done to the outside world. -/
def DNSCheck (fs : FS) (net : Nat → Env) (sched : Nat → Nat) (w : ResponseWriter)
    (r : Request) : ResponseWriter × Trace :=
  match DNSCheck.start fs w r [] with
  | Started.responded w tr => (w, tr)
  | Started.fanOut s =>
    let s := run net sched (steps s.list.length) s
    (s.w, s.tr)

/-! ## Specification vocabulary -/

/-- The addresses of the address (A) records of an answer section, in the
order of the section. -/
def addresses (answer : List RR) : List IP :=
  answer.filterMap (fun rr => match rr with
    | RR.A _ ip => some ip
    | _ => none)

/-- The message `resolveDomain` sends for a domain: one question, for the
A records of the domain followed by a dot. -/
def query (env : Env) (domain : String) : Msg :=
  ⟨env.id % 65536, true, [⟨domain ++ ".", TypeA, ClassINET⟩], []⟩

/-- The string `t` is the string `s` without its leading and trailing white space. -/
def IsTrimOf (s t : String) : Prop :=
  ∃ pre suf : List Char, s.data = pre ++ t.data ++ suf ∧
    (∀ c ∈ pre, isSpace c = true) ∧ (∀ c ∈ suf, isSpace c = true) ∧
    (∀ c, t.data.head? = some c → isSpace c = false) ∧
    (∀ c, t.data.getLast? = some c → isSpace c = false)

/-! ## The fan-out: the invariant and its vocabulary -/

/-- The endpoints paired with the behaviour of the network towards the
goroutine of each, counting from `k`. -/
def assign (net : Nat → Env) : Nat → List CheckServer → List (CheckServer × Env)
  | _, [] => []
  | k, e :: rest => (e, net k) :: assign net (k + 1) rest

/-- The endpoints the handler has still to start a goroutine for. -/
def MainPc.rest (list : List CheckServer) : MainPc → List CheckServer
  | MainPc.add => list
  | MainPc.range rest => rest
  | _ => []

/-- The goroutine holds the mutex. -/
def GoPc.holding : GoPc → Bool
  | GoPc.load _ => true
  | GoPc.store _ _ => true
  | GoPc.unlock => true
  | _ => false

/-- The goroutine has written its outcome to `responses`. -/
def GoPc.appended : GoPc → Bool
  | GoPc.unlock => true
  | GoPc.done => true
  | GoPc.exited => true
  | _ => false

/-- The goroutine has ended. -/
def GoPc.isExited : GoPc → Bool
  | GoPc.exited => true
  | _ => false

/-- The result of `resolveDomain` the goroutine carries in `resp`. -/
def GoPc.resp? : GoPc → Option String
  | GoPc.lock resp => some resp
  | GoPc.load resp => some resp
  | GoPc.store resp _ => some resp
  | _ => none

/-- The outcome owed for an endpoint: its name and what `resolveDomain`
returns for its address under the given behaviour of the network. -/
def outcome (domain : String) (e : CheckServer) (env : Env) : DNSResponse :=
  ⟨e.Name, (resolveDomain env domain e.IP []).1⟩

/-- What a goroutine has contributed to `responses` so far. -/
def Goroutine.contrib (domain : String) (g : Goroutine) : List DNSResponse :=
  if g.pc.appended then [outcome domain g.s g.env] else []

/-- The invariant of lines 68-91, for a run started with `domain`, `list` and
the response writer `w`. -/
structure Inv (net : Nat → Env) (domain : String) (list : List CheckServer)
    (w : ResponseWriter) (s : State) : Prop where
  domain_eq : s.domain = domain
  list_eq : s.list = list
  not_crashed : s.crashed = false
  fresh : s.pc = MainPc.add → s.goroutines = []
  assigned : s.goroutines.map (fun g => (g.s, g.env)) ++
      assign net s.goroutines.length (s.pc.rest list) = assign net 0 list
  counter : s.wg = (if s.pc = MainPc.add then 0 else (list.length : Int)) -
      (s.goroutines.countP (fun g => g.pc.isExited) : Int)
  mutex : s.goroutines.countP (fun g => g.pc.holding) = if s.lock then 1 else 0
  loaded : ∀ g ∈ s.goroutines, ∀ resp old, g.pc = GoPc.store resp old → old = s.responses
  resolved : ∀ g ∈ s.goroutines, ∀ resp, g.pc.resp? = some resp →
      resp = (resolveDomain g.env domain g.s.IP []).1
  collected : s.responses.Perm (s.goroutines.flatMap (Goroutine.contrib domain))
  joined : s.pc = MainPc.writeHeader ∨ s.pc = MainPc.encode ∨ s.pc = MainPc.returned →
      ∀ g ∈ s.goroutines, g.pc = GoPc.exited
  writer : s.w = match s.pc with
    | MainPc.encode => w.WriteHeader 200
    | MainPc.returned => (w.WriteHeader 200).Encode (Body.response ⟨domain, s.responses⟩)
    | _ => w

/-! ## The fan-out: the measure of termination -/

/-- The steps a goroutine has still to take. -/
def GoPc.weight : GoPc → Nat
  | GoPc.resolve => 6
  | GoPc.lock _ => 5
  | GoPc.load _ => 4
  | GoPc.store _ _ => 3
  | GoPc.unlock => 2
  | GoPc.done => 1
  | GoPc.exited => 0

/-- The steps the handler and the goroutines it has still to start have to take. -/
def MainPc.weight (list : List CheckServer) : MainPc → Nat
  | MainPc.add => 7 * list.length + 5
  | MainPc.range rest => 7 * rest.length + 4
  | MainPc.wait => 3
  | MainPc.writeHeader => 2
  | MainPc.encode => 1
  | MainPc.returned => 0

/-- The steps a state is away from the end. -/
def State.measure (s : State) : Nat :=
  s.pc.weight s.list + (s.goroutines.map (fun g => g.pc.weight)).sum

/-! ## The fan-out: the outcomes owed -/

/-- The outcomes owed for the list: for the `i`-th endpoint its name and what
`resolveDomain` returns to its goroutine. -/
def owed (net : Nat → Env) (domain : String) (list : List CheckServer) : List DNSResponse :=
  list.enum.map (fun p => ⟨p.2.Name, (resolveDomain (net p.1) domain p.2.IP []).1⟩)

/-! ## DNSCheck: the prepared writer -/

/-- The response writer after lines 38-39 on a fresh writer. -/
def prepared : ResponseWriter :=
  ⟨[("Access-Control-Allow-Origin", "*"), ("Content-Type", "application/json")], none, []⟩

/-! ## Examples -/

/-- A reply with one address record. -/
def exampleReply : Msg :=
  ⟨0, true, [⟨"example.com.", 1, 1⟩], [RR.A "example.com." (IP.v4 93 184 216 34)]⟩

/-- A resolver that answers with one address. -/
def exampleEnv : Env := ⟨0, fun _ _ _ => Except.ok exampleReply⟩

/-- A resolver that does not answer in time. -/
def timeoutEnv : Env := ⟨0, fun _ _ _ => Except.error "i/o timeout"⟩

/-- A reply whose answer section holds an alias and no address record. -/
def cnameReply : Msg :=
  ⟨0, true, [⟨"www.example.com.", 1, 1⟩], [RR.CNAME "www.example.com." "example.net."]⟩

/-- A resolver that answers with an alias and no address. -/
def cnameEnv : Env := ⟨0, fun _ _ _ => Except.ok cnameReply⟩

/-- The first resolver answers, the others time out. -/
def exampleNet : Nat → Env := fun i => if i = 0 then exampleEnv else timeoutEnv

def exampleList : List CheckServer := [⟨"A", "127.0.0.1"⟩, ⟨"B", "192.0.2.1"⟩]

/-- A list of two well-formed records. -/
def exampleFile : File :=
  ⟨"./list.csv", [⟨["A", " 127.0.0.1"], none⟩, ⟨["B ", "192.0.2.1"], none⟩]⟩

/-- A list whose second record has a wrong number of fields. -/
def badFile : File :=
  ⟨"./list.csv", [⟨["A", "127.0.0.1"], none⟩,
    ⟨["B"], some "record on line 2: wrong number of fields"⟩]⟩

def exampleRequest : Request :=
  ⟨⟨fun key => if key = "domain" then ["example.com"] else []⟩⟩

/-- A request without the parameter `domain`. -/
def bareRequest : Request := ⟨⟨fun _ => []⟩⟩

/-- The scheduler that picks the first thread that can move. -/
def firstReady : Nat → Nat := fun _ => 0

/-- The scheduler that lets the handler start every goroutine and then picks
the last thread that can move. -/
def lastReady : Nat → Nat := fun k => if 15 ≤ k then 0 else 5

/-- The end of the run of the example in which the second goroutine completes first. -/
def exampleEnd : State :=
  run exampleNet lastReady (steps 2) (State.init "example.com" exampleList prepared [])

/-- A state in the middle of a run of the example: the first goroutine has
ended, the second waits for the mutex, the handler is in `wg.Wait()`. -/
def exampleMiddle : State :=
  run exampleNet firstReady 12 (State.init "example.com" exampleList prepared [])

/-! ## Lemmas on the library models -/

theorem intercalate_go_eq_foldl (sep : String) (l : List String) (acc : String) :
    String.intercalate.go acc sep l = l.foldl (fun b s => b ++ sep ++ s) acc := by
  induction l generalizing acc with
  | nil => rfl
  | cons a l ih => simp [String.intercalate.go, ih]

theorem Join_eq_intercalate (elems : List String) (sep : String) :
    Join elems sep = sep.intercalate elems := by
  cases elems with
  | nil => rfl
  | cons e rest =>
    cases rest with
    | nil => rfl
    | cons e' rest => simp [Join, String.intercalate, intercalate_go_eq_foldl]

theorem collect_eq_addresses (answer : List RR) (acc : List String) :
    answer.foldl
        (fun result ans =>
          match ans with
          | RR.A _ rec => result ++ [rec.String]
          | _ => result)
        acc
      = acc ++ (addresses answer).map IP.String := by
  induction answer generalizing acc with
  | nil => simp [addresses]
  | cons rr answer ih =>
    cases rr <;> simp [addresses, List.filterMap_cons, ih]

theorem rdropWhile_append_rtakeWhile (p : Char → Bool) (l : List Char) :
    l.rdropWhile p ++ l.rtakeWhile p = l := by
  have h := congrArg List.reverse (List.takeWhile_append_dropWhile p l.reverse)
  rw [List.reverse_append, List.reverse_reverse] at h
  exact h

theorem TrimSpace_isTrimOf (s : String) : IsTrimOf s (TrimSpace s) := by
  refine ⟨s.data.takeWhile isSpace, (s.data.dropWhile isSpace).rtakeWhile isSpace,
    ?_, ?_, ?_, ?_, ?_⟩
  · simp only [TrimSpace, List.append_assoc, rdropWhile_append_rtakeWhile,
      List.takeWhile_append_dropWhile]
  · intro c hc
    exact List.mem_takeWhile_imp hc
  · intro c hc
    exact List.mem_rtakeWhile_imp hc
  · intro c hc
    simp only [TrimSpace] at hc
    have hpre : (s.data.dropWhile isSpace).rdropWhile isSpace <+: s.data.dropWhile isSpace :=
      List.rdropWhile_prefix isSpace _
    obtain ⟨u, hu⟩ := hpre
    have hhead : (s.data.dropWhile isSpace).head? = some c := by
      rw [← hu, List.head?_append_of_ne_nil]
      · exact hc
      · intro hnil
        rw [hnil] at hc
        simp at hc
    have := List.head?_dropWhile_not isSpace s.data
    rw [hhead] at this
    exact this
  · intro c hc
    simp only [TrimSpace] at hc
    by_cases hnil : (s.data.dropWhile isSpace).rdropWhile isSpace = []
    · rw [hnil] at hc
      simp at hc
    · have h := List.rdropWhile_last_not isSpace (s.data.dropWhile isSpace) hnil
      rw [List.getLast?_eq_getLast _ hnil] at hc
      injection hc with hc
      rw [hc] at h
      simpa using h

/-! ## Lemmas on resolveDomain -/

theorem resolveDomain_trace (env : Env) (domain server : String) (tr : Trace) :
    (resolveDomain env domain server tr).2 =
      tr ++ [Event.exchange ⟨⟨1000000000⟩, query env domain, server ++ ":53"⟩] := by
  unfold resolveDomain
  simp only [Client.Exchange]
  cases env.reply _ _ _ with
  | error e => rfl
  | ok r => by_cases h : r.Answer.length = 0 <;> simp [h] <;> exact ⟨rfl, rfl⟩

theorem resolveDomain_result (env : Env) (domain server : String) (tr : Trace) :
    (resolveDomain env domain server tr).1 =
      match env.reply ⟨1000000000⟩ (query env domain) (server ++ ":53") with
      | Except.error err => err
      | Except.ok r =>
        if r.Answer = [] then "no results"
        else ", ".intercalate ((addresses r.Answer).map IP.String) := by
  unfold resolveDomain
  simp only [Client.Exchange]
  have hq : Msg.SetQuestion ⟨0, false, [], []⟩ env (domain ++ ".") TypeA = query env domain := rfl
  have hc : (⟨1 * Second⟩ : Client) = ⟨1000000000⟩ := rfl
  rw [hq, hc]
  cases env.reply _ _ _ with
  | error e => rfl
  | ok r =>
    by_cases h : r.Answer = []
    · simp [h]
    · simp [h, collect_eq_addresses, Join_eq_intercalate]

/-- Without an answer section the result is the marker. -/
theorem resolveDomain_empty_answer (env : Env) (domain server : String) (tr : Trace) (r : Msg)
    (hok : env.reply ⟨1000000000⟩ (query env domain) (server ++ ":53") = Except.ok r)
    (hA : r.Answer = []) :
    (resolveDomain env domain server tr).1 = "no results" := by
  rw [resolveDomain_result, hok]
  simp [hA]

/-! ## Lemmas on readDNSList -/

theorem readDNSList_loop_nil (name : String) (list : List CheckServer) (tr : Trace) :
    readDNSList.loop ⟨name, []⟩ list tr = ((list, none), tr ++ [Event.csvRead name]) := by
  rw [readDNSList.loop]
  simp [File.Read]

theorem readDNSList_loop_cons (name : String) (res : ReadResult) (rest : List ReadResult)
    (list : List CheckServer) (tr : Trace) :
    readDNSList.loop ⟨name, res :: rest⟩ list tr =
      if res.err ≠ none ∨ res.record.length < 2 then
        ((list, some "could not parse dns list"), tr ++ [Event.csvRead name])
      else
        readDNSList.loop ⟨name, rest⟩
          (list ++ [⟨TrimSpace (res.record.getD 0 ""), TrimSpace (res.record.getD 1 "")⟩])
          (tr ++ [Event.csvRead name]) := by
  rw [readDNSList.loop]
  cases herr : res.err <;> simp [File.Read, herr]

theorem readDNSList_loop_ok (name : String) (pending : List ReadResult)
    (list : List CheckServer) (tr : Trace)
    (h : ∀ res ∈ pending, res.err = none ∧ 2 ≤ res.record.length) :
    (readDNSList.loop ⟨name, pending⟩ list tr).1 =
      (list ++ pending.map (fun res =>
        ⟨TrimSpace (res.record.getD 0 ""), TrimSpace (res.record.getD 1 "")⟩), none) := by
  induction pending generalizing list tr with
  | nil => simp [readDNSList_loop_nil]
  | cons res rest ih =>
    have hres := h res (List.mem_cons_self _ _)
    have hlen : ¬ res.record.length < 2 := by omega
    rw [readDNSList_loop_cons]
    simp only [hres.1, hlen, ne_eq, not_true_eq_false, or_self, if_false]
    rw [ih _ _ (fun r hr => h r (List.mem_cons_of_mem _ hr))]
    simp

theorem readDNSList_loop_bad (name : String) (pending : List ReadResult)
    (list : List CheckServer) (tr : Trace)
    (h : ∃ res ∈ pending, res.err ≠ none ∨ res.record.length < 2) :
    (readDNSList.loop ⟨name, pending⟩ list tr).1.2 = some "could not parse dns list" := by
  induction pending generalizing list tr with
  | nil => simp at h
  | cons res rest ih =>
    rw [readDNSList_loop_cons]
    by_cases hbad : res.err ≠ none ∨ res.record.length < 2
    · rw [if_pos hbad]
    · rw [if_neg hbad]
      apply ih
      obtain ⟨r, hr, hr'⟩ := h
      rcases List.mem_cons.mp hr with rfl | hmem
      · exact absurd hr' hbad
      · exact ⟨r, hmem, hr'⟩

theorem readDNSList_loop_trace (name : String) (pending : List ReadResult)
    (list : List CheckServer) (tr : Trace) :
    ∀ e ∈ (readDNSList.loop ⟨name, pending⟩ list tr).2, e ∈ tr ∨ e = Event.csvRead name := by
  induction pending generalizing list tr with
  | nil =>
    intro e he
    simpa [readDNSList_loop_nil] using he
  | cons res rest ih =>
    intro e he
    rw [readDNSList_loop_cons] at he
    split at he
    · simpa using he
    · rcases ih _ _ e he with h | h
      · simpa using h
      · exact Or.inr h

/-! ## The fan-out: the invariant holds in every reachable state -/

theorem assign_length (net : Nat → Env) (k : Nat) (l : List CheckServer) :
    (assign net k l).length = l.length := by
  induction l generalizing k with
  | nil => rfl
  | cons e l ih => simp [assign, ih]

theorem resolveDomain_fst (env : Env) (domain server : String) (tr : Trace) :
    (resolveDomain env domain server tr).1 = (resolveDomain env domain server []).1 := by
  rw [resolveDomain_result, resolveDomain_result]

theorem Inv.length_eq {net : Nat → Env} {domain : String} {list : List CheckServer}
    {w : ResponseWriter} {s : State} (h : Inv net domain list w s) :
    s.goroutines.length + (s.pc.rest list).length = list.length := by
  have := congrArg List.length h.assigned
  simpa [assign_length] using this

theorem Inv_init (net : Nat → Env) (domain : String) (list : List CheckServer)
    (w : ResponseWriter) (tr : Trace) : Inv net domain list w (State.init domain list w tr) := by
  constructor <;> simp [State.init, MainPc.rest]

theorem countP_exited_all {gs : List Goroutine}
    (h : gs.countP (fun g => g.pc.isExited) = gs.length) : ∀ g ∈ gs, g.pc = GoPc.exited := by
  intro g hg
  have := (List.countP_eq_length.mp h) g hg
  cases hpc : g.pc <;> simp [hpc, GoPc.isExited] at this ⊢

theorem Inv_stepMain {net : Nat → Env} {domain : String} {list : List CheckServer}
    {w : ResponseWriter} {s s' : State} (h : Inv net domain list w s)
    (hs : stepMain net s = some s') : Inv net domain list w s' := by
  have hlen := h.length_eq
  obtain ⟨dom, lst, pc, lock, wg, responses, gs, w', tr, crashed⟩ := s
  obtain ⟨h1, h2, h3, h4, h5, h6, h7, h8, h9, h10, h11, h12⟩ := h
  simp only at h1 h2 h3 h4 h5 h6 h7 h8 h9 h10 h11 h12 hlen
  subst h1 h2 h3
  cases pc with
  | add =>
    have hg := h4 rfl
    subst hg
    simp only [List.countP_nil, if_true, Nat.cast_zero, sub_zero] at h6
    subst h6
    have hnn : ¬ ((0 : Int) + (lst.length : Int) < 0) := by omega
    simp only [stepMain, hnn, if_false, Option.some.injEq] at hs
    subst hs
    refine ⟨rfl, rfl, rfl, ?_, ?_, ?_, ?_, ?_, ?_, ?_, ?_, ?_⟩
    · intro _; rfl
    · exact h5
    · simp
    · exact h7
    · exact h8
    · exact h9
    · exact h10
    · intro hh; simp at hh
    · exact h12
  | range rest =>
    cases rest with
    | nil =>
      simp only [stepMain, Option.some.injEq] at hs
      subst hs
      refine ⟨rfl, rfl, rfl, ?_, ?_, ?_, ?_, ?_, ?_, ?_, ?_, ?_⟩
      · intro hh; cases hh
      · exact h5
      · simpa using h6
      · exact h7
      · exact h8
      · exact h9
      · exact h10
      · intro hh; simp at hh
      · exact h12
    | cons e rest =>
      simp only [stepMain, Option.some.injEq] at hs
      subst hs
      refine ⟨rfl, rfl, rfl, ?_, ?_, ?_, ?_, ?_, ?_, ?_, ?_, ?_⟩
      · intro hh; cases hh
      · simpa [MainPc.rest, assign] using h5
      · simpa [GoPc.isExited] using h6
      · simpa [GoPc.holding] using h7
      · intro g hg resp old hpc
        rcases List.mem_append.mp hg with hg | hg
        · exact h8 g hg resp old hpc
        · simp only [List.mem_singleton] at hg
          subst hg
          cases hpc
      · intro g hg resp hpc
        rcases List.mem_append.mp hg with hg | hg
        · exact h9 g hg resp hpc
        · simp only [List.mem_singleton] at hg
          subst hg
          cases hpc
      · simpa [Goroutine.contrib, GoPc.appended] using h10
      · intro hh; simp at hh
      · exact h12
  | wait =>
    simp only [stepMain] at hs
    split at hs
    next hwg =>
      simp only [Option.some.injEq] at hs
      subst hs
      have hall : ∀ g ∈ gs, g.pc = GoPc.exited := by
        apply countP_exited_all
        simp only [MainPc.rest, List.length_nil, add_zero] at hlen
        simp only [reduceCtorEq, if_false] at h6
        omega
      refine ⟨rfl, rfl, rfl, ?_, ?_, ?_, ?_, ?_, ?_, ?_, ?_, ?_⟩
      · intro hh; cases hh
      · exact h5
      · simpa using h6
      · exact h7
      · exact h8
      · exact h9
      · exact h10
      · intro _; exact hall
      · exact h12
    next => cases hs
  | writeHeader =>
    simp only [stepMain, Option.some.injEq] at hs
    subst hs
    refine ⟨rfl, rfl, rfl, ?_, ?_, ?_, ?_, ?_, ?_, ?_, ?_, ?_⟩
    · intro hh; cases hh
    · exact h5
    · simpa using h6
    · exact h7
    · exact h8
    · exact h9
    · exact h10
    · intro _; exact h11 (Or.inl rfl)
    · simp only [h12]
  | encode =>
    simp only [stepMain, Option.some.injEq] at hs
    subst hs
    refine ⟨rfl, rfl, rfl, ?_, ?_, ?_, ?_, ?_, ?_, ?_, ?_, ?_⟩
    · intro hh; cases hh
    · exact h5
    · simpa using h6
    · exact h7
    · exact h8
    · exact h9
    · exact h10
    · intro _; exact h11 (Or.inr (Or.inl rfl))
    · simp only [h12]
  | returned => simp [stepMain] at hs

theorem get?_split {α : Type} {l : List α} {i : Nat} {a : α} (h : l[i]? = some a) :
    ∃ l1 l2, l = l1 ++ a :: l2 ∧ ∀ b, l.set i b = l1 ++ b :: l2 := by
  induction l generalizing i with
  | nil => simp at h
  | cons x l ih =>
    cases i with
    | zero =>
      simp only [List.getElem?_cons_zero, Option.some.injEq] at h
      subst h
      exact ⟨[], l, rfl, fun b => rfl⟩
    | succ i =>
      simp only [List.getElem?_cons_succ] at h
      obtain ⟨l1, l2, h1, h2⟩ := ih h
      exact ⟨x :: l1, l2, by rw [h1]; rfl, fun b => by simp [h2]⟩

theorem forall_mem_update {P : Goroutine → Prop} {l1 l2 : List Goroutine} {g g' : Goroutine}
    (h : ∀ x ∈ l1 ++ g :: l2, P x) (hg : P g') : ∀ x ∈ l1 ++ g' :: l2, P x := by
  intro x hx
  simp only [List.mem_append, List.mem_cons] at hx
  rcases hx with hx | rfl | hx
  · exact h x (by simp [hx])
  · exact hg
  · exact h x (by simp [hx])

theorem holding_unique {l1 l2 : List Goroutine} {g : Goroutine} {lock : Bool}
    (h : (l1 ++ g :: l2).countP (fun g => g.pc.holding) = if lock then 1 else 0)
    (hg : g.pc.holding = true) :
    lock = true ∧ ∀ x, x ∈ l1 ∨ x ∈ l2 → x.pc.holding = false := by
  simp only [List.countP_append, List.countP_cons, hg, if_true] at h
  cases lock with
  | false => simp at h
  | true =>
    refine ⟨rfl, ?_⟩
    simp only [if_true] at h
    have h1 : l1.countP (fun g => g.pc.holding) = 0 := by omega
    have h2 : l2.countP (fun g => g.pc.holding) = 0 := by omega
    intro x hx
    rcases hx with hx | hx
    · have := List.countP_eq_zero.mp h1 x hx
      simpa using this
    · have := List.countP_eq_zero.mp h2 x hx
      simpa using this

theorem Inv_stepGo {net : Nat → Env} {domain : String} {list : List CheckServer}
    {w : ResponseWriter} {s s' : State} {i : Nat} (h : Inv net domain list w s)
    (hs : stepGo s i = some s') : Inv net domain list w s' := by
  have hlen := h.length_eq
  obtain ⟨dom, lst, pc, lock, wg, responses, gs, w', tr, crashed⟩ := s
  obtain ⟨h1, h2, h3, h4, h5, h6, h7, h8, h9, h10, h11, h12⟩ := h
  simp only at h1 h2 h3 h4 h5 h6 h7 h8 h9 h10 h11 h12 hlen
  subst h1 h2 h3
  simp only [stepGo] at hs
  cases hg : gs[i]? with
  | none => simp [hg] at hs
  | some g =>
    obtain ⟨l1, l2, hgs, hset⟩ := get?_split hg
    simp only [hg, hset] at hs
    subst hgs
    have hadd : pc ≠ MainPc.add := by
      intro hh
      have := h4 hh
      simp at this
    obtain ⟨e, env, gpc⟩ := g
    have hmem : (⟨e, env, gpc⟩ : Goroutine) ∈ l1 ++ ⟨e, env, gpc⟩ :: l2 := by simp
    have hnj : gpc ≠ GoPc.exited →
        ¬ (pc = MainPc.writeHeader ∨ pc = MainPc.encode ∨ pc = MainPc.returned) := by
      intro hne hh
      exact hne (h11 hh _ hmem)
    cases gpc with
    | resolve =>
      simp only [Option.some.injEq] at hs
      subst hs
      refine ⟨rfl, rfl, rfl, ?_, ?_, ?_, ?_, ?_, ?_, ?_, ?_, ?_⟩
      · intro hh; exact absurd hh hadd
      · simpa using h5
      · simpa [GoPc.isExited] using h6
      · simpa [GoPc.holding] using h7
      · exact forall_mem_update h8 (by intro resp old hh; cases hh)
      · refine forall_mem_update h9 ?_
        intro resp hh
        simp only [GoPc.resp?, Option.some.injEq] at hh
        rw [← hh]
        exact resolveDomain_fst _ _ _ _
      · simpa [Goroutine.contrib, GoPc.appended] using h10
      · intro hh; exact absurd hh (hnj (by simp))
      · exact h12
    | lock resp =>
      cases lock with
      | true => simp at hs
      | false =>
        simp only [Bool.false_eq_true, if_false, Option.some.injEq] at hs
        subst hs
        refine ⟨rfl, rfl, rfl, ?_, ?_, ?_, ?_, ?_, ?_, ?_, ?_, ?_⟩
        · intro hh; exact absurd hh hadd
        · simpa using h5
        · simpa [GoPc.isExited] using h6
        · simp only [List.countP_append, List.countP_cons, GoPc.holding, Bool.false_eq_true,
            if_false, if_true, add_zero] at h7 ⊢
          omega
        · exact forall_mem_update h8 (by intro resp old hh; cases hh)
        · refine forall_mem_update h9 ?_
          intro r hh
          exact h9 _ hmem r hh
        · simpa [Goroutine.contrib, GoPc.appended] using h10
        · intro hh; exact absurd hh (hnj (by simp))
        · exact h12
    | load resp =>
      simp only [Option.some.injEq] at hs
      subst hs
      refine ⟨rfl, rfl, rfl, ?_, ?_, ?_, ?_, ?_, ?_, ?_, ?_, ?_⟩
      · intro hh; exact absurd hh hadd
      · simpa using h5
      · simpa [GoPc.isExited] using h6
      · simpa [GoPc.holding] using h7
      · refine forall_mem_update h8 ?_
        intro r old hh
        simp only [GoPc.store.injEq] at hh
        exact hh.2.symm
      · refine forall_mem_update h9 ?_
        intro r hh
        exact h9 _ hmem r hh
      · simpa [Goroutine.contrib, GoPc.appended] using h10
      · intro hh; exact absurd hh (hnj (by simp))
      · exact h12
    | store resp old =>
      simp only [Option.some.injEq] at hs
      subst hs
      have hold : old = responses := h8 _ hmem resp old rfl
      subst hold
      have hresp : resp = (resolveDomain env dom e.IP []).1 := h9 _ hmem resp rfl
      have huniq := (holding_unique h7 rfl).2
      refine ⟨rfl, rfl, rfl, ?_, ?_, ?_, ?_, ?_, ?_, ?_, ?_, ?_⟩
      · intro hh; exact absurd hh hadd
      · simpa using h5
      · simpa [GoPc.isExited] using h6
      · simpa [GoPc.holding] using h7
      · intro x hx r o hh
        simp only [List.mem_append, List.mem_cons] at hx
        rcases hx with hx | rfl | hx
        · have := huniq x (Or.inl hx)
          simp [hh, GoPc.holding] at this
        · cases hh
        · have := huniq x (Or.inr hx)
          simp [hh, GoPc.holding] at this
      · exact forall_mem_update h9 (by intro r hh; cases hh)
      · simp only [List.flatMap_append, List.flatMap_cons, Goroutine.contrib, GoPc.appended,
          Bool.false_eq_true, if_false, if_true, List.nil_append, List.singleton_append] at h10 ⊢
        rw [hresp]
        exact (List.perm_append_singleton _ _).trans
          ((List.Perm.cons _ h10).trans List.perm_middle.symm)
      · intro hh; exact absurd hh (hnj (by simp))
      · have hnr := hnj (by simp : GoPc.store resp old ≠ GoPc.exited)
        cases pc <;> first | exact h12 | exact absurd (by simp) hnr
    | unlock =>
      have hlock := (holding_unique h7 rfl).1
      subst hlock
      simp only [if_true, Option.some.injEq] at hs
      subst hs
      refine ⟨rfl, rfl, rfl, ?_, ?_, ?_, ?_, ?_, ?_, ?_, ?_, ?_⟩
      · intro hh; exact absurd hh hadd
      · simpa using h5
      · simpa [GoPc.isExited] using h6
      · simp only [List.countP_append, List.countP_cons, GoPc.holding, Bool.false_eq_true,
          if_false, if_true, add_zero] at h7 ⊢
        omega
      · exact forall_mem_update h8 (by intro resp old hh; cases hh)
      · exact forall_mem_update h9 (by intro r hh; cases hh)
      · simpa [Goroutine.contrib, GoPc.appended] using h10
      · intro hh; exact absurd hh (hnj (by simp))
      · exact h12
    | done =>
      have hd : GoPc.isExited GoPc.done = false := rfl
      have hx : GoPc.isExited GoPc.exited = true := rfl
      simp only [hadd, if_false, List.countP_append, List.countP_cons, hd,
        Bool.false_eq_true, add_zero] at h6
      have hc1 := List.countP_le_length (fun g : Goroutine => g.pc.isExited) (l := l1)
      have hc2 := List.countP_le_length (fun g : Goroutine => g.pc.isExited) (l := l2)
      simp only [List.length_append, List.length_cons] at hlen
      have hwg : ¬ (wg - 1 < 0) := by omega
      simp only [hwg, if_false, Option.some.injEq] at hs
      subst hs
      refine ⟨rfl, rfl, rfl, ?_, ?_, ?_, ?_, ?_, ?_, ?_, ?_, ?_⟩
      · intro hh; exact absurd hh hadd
      · simpa using h5
      · simp only [hadd, if_false, List.countP_append, List.countP_cons, hx, if_true]
        rw [h6]
        push_cast
        ring
      · simpa [GoPc.holding] using h7
      · exact forall_mem_update h8 (by intro resp old hh; cases hh)
      · exact forall_mem_update h9 (by intro r hh; cases hh)
      · simpa [Goroutine.contrib, GoPc.appended] using h10
      · intro hh; exact absurd hh (hnj (by simp))
      · exact h12
    | exited => simp at hs

theorem Inv_step {net : Nat → Env} {domain : String} {list : List CheckServer}
    {w : ResponseWriter} {s s' : State} {t : Tid} (h : Inv net domain list w s)
    (hs : step net s t = some s') : Inv net domain list w s' := by
  unfold step at hs
  rw [h.not_crashed] at hs
  simp only [Bool.false_eq_true, if_false] at hs
  cases t with
  | main => exact Inv_stepMain h hs
  | go i => exact Inv_stepGo h hs

theorem Inv_reachable {net : Nat → Env} {domain : String} {list : List CheckServer}
    {w : ResponseWriter} {tr : Trace} {s : State}
    (h : Reachable net (State.init domain list w tr) s) : Inv net domain list w s := by
  induction h with
  | init => exact Inv_init net domain list w tr
  | next t _ hs ih => exact Inv_step ih hs

/-- Goroutines that have all ended have contributed one outcome each. -/
theorem flatMap_contrib_exited (domain : String) (gs : List Goroutine)
    (h : ∀ g ∈ gs, g.pc = GoPc.exited) :
    gs.flatMap (Goroutine.contrib domain) =
      (gs.map (fun g => (g.s, g.env))).map (fun p => outcome domain p.1 p.2) := by
  induction gs with
  | nil => rfl
  | cons g gs ih =>
    have hg := h g (List.mem_cons_self _ _)
    simp only [List.flatMap_cons, List.map_cons, Goroutine.contrib, hg, GoPc.appended, if_true,
      List.singleton_append]
    rw [ih (fun x hx => h x (List.mem_cons_of_mem _ hx))]

theorem assign_eq_enumFrom (net : Nat → Env) (k : Nat) (l : List CheckServer) :
    assign net k l = (l.enumFrom k).map (fun p => (p.2, net p.1)) := by
  induction l generalizing k with
  | nil => rfl
  | cons e l ih => simp [assign, List.enumFrom_cons, ih]

/-- Once the handler is past `wg.Wait()`, every endpoint has its goroutine,
every goroutine has ended, and `responses` holds the outcomes owed. -/
theorem Inv.complete {net : Nat → Env} {domain : String} {list : List CheckServer}
    {w : ResponseWriter} {s : State} (h : Inv net domain list w s)
    (hpc : s.pc = MainPc.writeHeader ∨ s.pc = MainPc.encode ∨ s.pc = MainPc.returned) :
    s.goroutines.length = list.length ∧ (∀ g ∈ s.goroutines, g.pc = GoPc.exited) ∧
      s.responses.Perm (list.enum.map (fun p =>
        (⟨p.2.Name, (resolveDomain (net p.1) domain p.2.IP []).1⟩ : DNSResponse))) := by
  have hall := h.joined hpc
  have hrest : s.pc.rest list = [] := by
    rcases hpc with hpc | hpc | hpc <;> rw [hpc] <;> rfl
  have hlen := h.length_eq
  have hass := h.assigned
  rw [hrest] at hlen hass
  simp only [List.length_nil, add_zero] at hlen
  simp only [assign, List.append_nil] at hass
  refine ⟨hlen, hall, ?_⟩
  have hc := h.collected
  rw [flatMap_contrib_exited domain _ hall, hass, assign_eq_enumFrom] at hc
  simpa [List.enum, outcome, Function.comp_def] using hc

/-! ## The fan-out: every step counts down, and no deadlock -/

theorem weight_resolve : GoPc.resolve.weight = 6 := rfl

theorem weight_lock (resp : String) : (GoPc.lock resp).weight = 5 := rfl

theorem weight_load (resp : String) : (GoPc.load resp).weight = 4 := rfl

theorem weight_store (resp : String) (old : List DNSResponse) :
    (GoPc.store resp old).weight = 3 := rfl

theorem weight_unlock : GoPc.unlock.weight = 2 := rfl

theorem weight_done : GoPc.done.weight = 1 := rfl

theorem weight_exited : GoPc.exited.weight = 0 := rfl

theorem step_measure {net : Nat → Env} {domain : String} {list : List CheckServer}
    {w : ResponseWriter} {s s' : State} {t : Tid} (h : Inv net domain list w s)
    (hs : step net s t = some s') : s'.measure + 1 = s.measure := by
  have hc := (Inv_step h hs).not_crashed
  unfold step at hs
  rw [h.not_crashed] at hs
  simp only [Bool.false_eq_true, if_false] at hs
  obtain ⟨dom, lst, pc, lock, wg, responses, gs, w', tr, crashed⟩ := s
  cases t with
  | main =>
    simp only [stepMain] at hs
    split at hs
    · split at hs <;> simp only [Option.some.injEq] at hs <;> subst hs
      · simp at hc
      · simp only [State.measure, MainPc.weight, List.map_append, List.map_cons,
          List.sum_append, List.sum_cons, List.length_cons, List.length_nil, List.map_nil, List.sum_nil,
          weight_resolve, weight_lock, weight_load, weight_store, weight_unlock,
          weight_done, weight_exited]
        omega
    · simp only [Option.some.injEq] at hs
      subst hs
      simp only [State.measure, MainPc.weight, List.map_append, List.map_cons,
        List.sum_append, List.sum_cons, List.length_cons, List.length_nil, List.map_nil, List.sum_nil,
        weight_resolve, weight_lock, weight_load, weight_store, weight_unlock,
        weight_done, weight_exited]
      omega
    · simp only [Option.some.injEq] at hs
      subst hs
      simp only [State.measure, MainPc.weight, List.map_append, List.map_cons,
        List.sum_append, List.sum_cons, List.length_cons, List.length_nil, List.map_nil, List.sum_nil,
        weight_resolve, weight_lock, weight_load, weight_store, weight_unlock,
        weight_done, weight_exited]
      omega
    · split at hs
      · simp only [Option.some.injEq] at hs
        subst hs
        simp only [State.measure, MainPc.weight, List.map_append, List.map_cons,
          List.sum_append, List.sum_cons, List.length_cons, List.length_nil, List.map_nil, List.sum_nil,
          weight_resolve, weight_lock, weight_load, weight_store, weight_unlock,
          weight_done, weight_exited]
        omega
      · cases hs
    · simp only [Option.some.injEq] at hs
      subst hs
      simp only [State.measure, MainPc.weight, List.map_append, List.map_cons,
        List.sum_append, List.sum_cons, List.length_cons, List.length_nil, List.map_nil, List.sum_nil,
        weight_resolve, weight_lock, weight_load, weight_store, weight_unlock,
        weight_done, weight_exited]
      omega
    · simp only [Option.some.injEq] at hs
      subst hs
      simp only [State.measure, MainPc.weight, List.map_append, List.map_cons,
        List.sum_append, List.sum_cons, List.length_cons, List.length_nil, List.map_nil, List.sum_nil,
        weight_resolve, weight_lock, weight_load, weight_store, weight_unlock,
        weight_done, weight_exited]
      omega
    · cases hs
  | go i =>
    simp only [stepGo] at hs
    cases hg : gs[i]? with
    | none => simp [hg] at hs
    | some g =>
      obtain ⟨l1, l2, hgs, hset⟩ := get?_split hg
      simp only [hg, hset] at hs
      subst hgs
      obtain ⟨e, env, gpc⟩ := g
      cases gpc with
      | resolve =>
        simp only [Option.some.injEq] at hs
        subst hs
        simp only [State.measure, MainPc.weight, List.map_append, List.map_cons,
          List.sum_append, List.sum_cons, List.length_cons, List.length_nil, List.map_nil, List.sum_nil,
          weight_resolve, weight_lock, weight_load, weight_store, weight_unlock,
          weight_done, weight_exited]
        omega
      | lock resp =>
        dsimp only at hs
        split at hs
        · cases hs
        · simp only [Option.some.injEq] at hs
          subst hs
          simp only [State.measure, MainPc.weight, List.map_append, List.map_cons,
            List.sum_append, List.sum_cons, List.length_cons, List.length_nil, List.map_nil, List.sum_nil,
            weight_resolve, weight_lock, weight_load, weight_store, weight_unlock,
            weight_done, weight_exited]
          omega
      | load resp =>
        simp only [Option.some.injEq] at hs
        subst hs
        simp only [State.measure, MainPc.weight, List.map_append, List.map_cons,
          List.sum_append, List.sum_cons, List.length_cons, List.length_nil, List.map_nil, List.sum_nil,
          weight_resolve, weight_lock, weight_load, weight_store, weight_unlock,
          weight_done, weight_exited]
        omega
      | store resp old =>
        simp only [Option.some.injEq] at hs
        subst hs
        simp only [State.measure, MainPc.weight, List.map_append, List.map_cons,
          List.sum_append, List.sum_cons, List.length_cons, List.length_nil, List.map_nil, List.sum_nil,
          weight_resolve, weight_lock, weight_load, weight_store, weight_unlock,
          weight_done, weight_exited]
        omega
      | unlock =>
        dsimp only at hs
        split at hs <;> simp only [Option.some.injEq] at hs <;> subst hs
        · simp only [State.measure, MainPc.weight, List.map_append, List.map_cons,
            List.sum_append, List.sum_cons, List.length_cons, List.length_nil, List.map_nil, List.sum_nil,
            weight_resolve, weight_lock, weight_load, weight_store, weight_unlock,
            weight_done, weight_exited]
          omega
        · simp at hc
      | done =>
        dsimp only at hs
        split at hs <;> simp only [Option.some.injEq] at hs <;> subst hs
        · simp at hc
        · simp only [State.measure, MainPc.weight, List.map_append, List.map_cons,
            List.sum_append, List.sum_cons, List.length_cons, List.length_nil, List.map_nil, List.sum_nil,
            weight_resolve, weight_lock, weight_load, weight_store, weight_unlock,
            weight_done, weight_exited]
          omega
      | exited => simp at hs

/-- A goroutine that has not ended and is not blocked in `Lock` can move. -/
theorem stepGo_isSome {s : State} {i : Nat} {g : Goroutine} (hg : s.goroutines[i]? = some g)
    (hne : g.pc ≠ GoPc.exited) (hl : ∀ resp, g.pc = GoPc.lock resp → s.lock = false) :
    ∃ s', stepGo s i = some s' := by
  simp only [stepGo, hg]
  obtain ⟨e, env, gpc⟩ := g
  cases gpc with
  | resolve => exact ⟨_, rfl⟩
  | lock resp =>
    have := hl resp rfl
    simp only [this, Bool.false_eq_true, if_false]
    exact ⟨_, rfl⟩
  | load resp => exact ⟨_, rfl⟩
  | store resp old => exact ⟨_, rfl⟩
  | unlock =>
    dsimp only
    split <;> exact ⟨_, rfl⟩
  | done =>
    dsimp only
    split <;> exact ⟨_, rfl⟩
  | exited => exact absurd rfl hne

/-- No deadlock: until the handler has returned, some thread can move. -/
theorem progress {net : Nat → Env} {domain : String} {list : List CheckServer}
    {w : ResponseWriter} {s : State} (h : Inv net domain list w s)
    (hpc : s.pc ≠ MainPc.returned) : ∃ t s', step net s t = some s' := by
  have hcr := h.not_crashed
  by_cases hmain : ∃ s', stepMain net s = some s'
  · obtain ⟨s', hs'⟩ := hmain
    exact ⟨Tid.main, s', by simp [step, hcr, hs']⟩
  · have hwait : s.pc = MainPc.wait ∧ s.wg ≠ 0 := by
      by_contra hcon
      apply hmain
      unfold stepMain
      split
      · split <;> exact ⟨_, rfl⟩
      · exact ⟨_, rfl⟩
      · exact ⟨_, rfl⟩
      · next hw =>
        split
        · exact ⟨_, rfl⟩
        · next hwg => exact absurd ⟨hw, hwg⟩ hcon
      · exact ⟨_, rfl⟩
      · exact ⟨_, rfl⟩
      · next hr => exact absurd hr hpc
    obtain ⟨hw, hwg⟩ := hwait
    have hlen := h.length_eq
    have hcount := h.counter
    rw [hw] at hlen hcount
    simp only [MainPc.rest, List.length_nil, add_zero, reduceCtorEq, if_false] at hlen hcount
    have hex : ∃ g ∈ s.goroutines, g.pc ≠ GoPc.exited := by
      by_contra hcon
      push_neg at hcon
      have : s.goroutines.countP (fun g => g.pc.isExited) = s.goroutines.length := by
        rw [List.countP_eq_length]
        intro g hg
        simp [hcon g hg, GoPc.isExited]
      omega
    obtain ⟨g, hgmem, hgne⟩ := hex
    suffices hgo : ∃ i s', stepGo s i = some s' by
      obtain ⟨i, s', hs'⟩ := hgo
      exact ⟨Tid.go i, s', by simp [step, hcr, hs']⟩
    by_cases hfree : s.lock = false
    · obtain ⟨i, hi⟩ := List.getElem?_of_mem hgmem
      obtain ⟨s', hs'⟩ := stepGo_isSome hi hgne (fun _ _ => hfree)
      exact ⟨i, s', hs'⟩
    · have hheld : s.lock = true := by simpa using hfree
      have hm := h.mutex
      rw [hheld] at hm
      simp only [if_true] at hm
      have hpos : 0 < s.goroutines.countP (fun g => g.pc.holding) := by omega
      obtain ⟨g', hg'mem, hg'⟩ := List.countP_pos_iff.mp hpos
      obtain ⟨i, hi⟩ := List.getElem?_of_mem hg'mem
      have hne' : g'.pc ≠ GoPc.exited := by
        intro hh
        simp [hh, GoPc.holding] at hg'
      have hnl : ∀ resp, g'.pc = GoPc.lock resp → s.lock = false := by
        intro resp hh
        simp [hh, GoPc.holding] at hg'
      obtain ⟨s', hs'⟩ := stepGo_isSome hi hne' hnl
      exact ⟨i, s', hs'⟩

/-! ## The fan-out: runs under a scheduler -/

theorem mem_successors {net : Nat → Env} {s x : State} :
    x ∈ successors net s ↔ ∃ t, t ∈ tids s ∧ step net s t = some x := by
  simp [successors, List.mem_filterMap]

theorem step_mem_successors {net : Nat → Env} {s s' : State} {t : Tid}
    (h : step net s t = some s') : s' ∈ successors net s := by
  rw [mem_successors]
  refine ⟨t, ?_, h⟩
  cases t with
  | main => simp [tids]
  | go i =>
    have hi : i < s.goroutines.length := by
      by_contra hcon
      have hnone : s.goroutines[i]? = none := List.getElem?_eq_none (by omega)
      unfold step at h
      split at h
      · cases h
      · simp [stepGo, hnone] at h
    simp [tids, hi]

theorem pick_mem {α : Type} (l : List α) (k : Nat) (d : α) (hd : d ∈ l) : (l[k]?).getD d ∈ l := by
  cases h : l[k]? with
  | none => simpa using hd
  | some x => simpa using List.getElem?_mem h

theorem Reachable.trans {net : Nat → Env} {s₀ s₁ s₂ : State} (h₁ : Reachable net s₀ s₁)
    (h₂ : Reachable net s₁ s₂) : Reachable net s₀ s₂ := by
  induction h₂ with
  | init => exact h₁
  | next t _ hs ih => exact Reachable.next t ih hs

theorem run_reachable (net : Nat → Env) (sched : Nat → Nat) (fuel : Nat) (s : State) :
    Reachable net s (run net sched fuel s) := by
  induction fuel generalizing s with
  | zero => exact Reachable.init
  | succ fuel ih =>
    unfold run
    split
    · exact Reachable.init
    · next s' rest hsucc =>
      have hmem : ((s' :: rest)[sched fuel % (rest.length + 1)]?).getD s' ∈ successors net s := by
        rw [hsucc]
        exact pick_mem _ _ _ (List.mem_cons_self _ _)
      obtain ⟨t, _, ht⟩ := mem_successors.mp hmem
      exact Reachable.trans (Reachable.next t Reachable.init ht) (ih _)

theorem measure_zero {s : State} (h : s.measure = 0) : s.pc = MainPc.returned := by
  obtain ⟨dom, lst, pc, lock, wg, responses, gs, w', tr, crashed⟩ := s
  cases pc <;> simp [State.measure, MainPc.weight] at h ⊢

/-- Every run of lines 68-91 reaches the return of the handler within the
steps its state is away from the end. -/
theorem run_returned {net : Nat → Env} {domain : String} {list : List CheckServer}
    {w : ResponseWriter} (sched : Nat → Nat) (fuel : Nat) (s : State)
    (h : Inv net domain list w s) (hm : s.measure ≤ fuel) :
    (run net sched fuel s).pc = MainPc.returned := by
  induction fuel generalizing s with
  | zero => exact measure_zero (by simpa [run] using hm)
  | succ fuel ih =>
    unfold run
    split
    · next hsucc =>
      by_contra hpc
      obtain ⟨t, s', hs'⟩ := progress h hpc
      have := step_mem_successors hs'
      rw [hsucc] at this
      simp at this
    · next s' rest hsucc =>
      have hmem : ((s' :: rest)[sched fuel % (rest.length + 1)]?).getD s' ∈ successors net s := by
        rw [hsucc]
        exact pick_mem _ _ _ (List.mem_cons_self _ _)
      obtain ⟨t, _, ht⟩ := mem_successors.mp hmem
      have hdec := step_measure h ht
      exact ih _ (Inv_step h ht) (by omega)

theorem measure_init (domain : String) (list : List CheckServer) (w : ResponseWriter)
    (tr : Trace) : (State.init domain list w tr).measure = steps list.length := by
  simp [State.measure, State.init, MainPc.weight, steps]

theorem run_nil {net : Nat → Env} (sched : Nat → Nat) (n : Nat) {s : State}
    (h : successors net s = []) : run net sched n s = s := by
  cases n with
  | zero => rfl
  | succ n => simp [run, h]

theorem run_add (net : Nat → Env) (sched : Nat → Nat) (fuel n : Nat) (s : State) :
    run net sched (fuel + n) s = run net sched n (run net (fun k => sched (k + n)) fuel s) := by
  induction fuel generalizing s with
  | zero => simp [run]
  | succ fuel ih =>
    have hsucc : fuel + 1 + n = (fuel + n) + 1 := by omega
    rw [hsucc]
    cases hs : successors net s with
    | nil => simp [run, hs, run_nil]
    | cons s' rest =>
      simp only [run, hs]
      rw [ih]

/-- Every interleaving is the run under some scheduler. -/
theorem reachable_run {net : Nat → Env} {s₀ s : State} (h : Reachable net s₀ s) :
    ∃ sched fuel, run net sched fuel s₀ = s := by
  induction h with
  | init => exact ⟨fun _ => 0, 0, rfl⟩
  | @next s s' t _ hs ih =>
    obtain ⟨sched, fuel, hrun⟩ := ih
    have hmem := step_mem_successors hs
    obtain ⟨i, hi⟩ := List.getElem?_of_mem hmem
    have hlt : i < (successors net s).length := by
      by_contra hcon
      rw [List.getElem?_eq_none (by omega)] at hi
      cases hi
    refine ⟨fun k => if k = 0 then i else sched (k - 1), fuel + 1, ?_⟩
    rw [run_add]
    have hshift : (fun k => (fun k => if k = 0 then i else sched (k - 1)) (k + 1)) = sched := by
      funext k
      simp
    rw [hshift, hrun]
    cases hsucc : successors net s with
    | nil => rw [hsucc] at hlt; simp at hlt
    | cons x rest =>
      rw [hsucc] at hlt hi
      simp only [List.length_cons] at hlt
      simp only [run, hsucc, if_true, Nat.mod_eq_of_lt hlt, hi, Option.getD_some]

/-! ## The fan-out: what a run ends in -/

theorem owed_length (net : Nat → Env) (domain : String) (list : List CheckServer) :
    (owed net domain list).length = list.length := by
  simp [owed]

theorem owed_uniform (env : Env) (domain : String) (list : List CheckServer) :
    owed (fun _ => env) domain list =
      list.map (fun e => ⟨e.Name, (resolveDomain env domain e.IP []).1⟩) := by
  simp only [owed, List.enum]
  generalize 0 = k
  induction list generalizing k with
  | nil => rfl
  | cons e l ih => simp [List.enumFrom_cons, ih]

/-- What is visible of a reachable state in the response body: nothing before
the handler returns, the complete outcomes after. -/
theorem reachable_body {net : Nat → Env} {domain : String} {list : List CheckServer}
    {w : ResponseWriter} {tr : Trace} {s : State}
    (h : Reachable net (State.init domain list w tr) s) :
    (s.pc ≠ MainPc.returned → s.w.body = w.body) ∧
    (s.pc = MainPc.returned →
      s.w = (w.WriteHeader 200).Encode (Body.response ⟨domain, s.responses⟩) ∧
      s.responses.Perm (owed net domain list)) := by
  have hinv := Inv_reachable h
  have hw := hinv.writer
  constructor
  · intro hpc
    rw [hw]
    cases hs : s.pc <;> first | rfl | exact absurd hs hpc
  · intro hpc
    rw [hpc] at hw
    exact ⟨hw, (hinv.complete (Or.inr (Or.inr hpc))).2.2⟩

/-- Under every scheduler the run of lines 68-91 ends with the handler
returned and the complete outcomes encoded. -/
theorem run_init (net : Nat → Env) (sched : Nat → Nat) (domain : String)
    (list : List CheckServer) (w : ResponseWriter) (tr : Trace) :
    ∃ rs, (run net sched (steps list.length) (State.init domain list w tr)).w =
        (w.WriteHeader 200).Encode (Body.response ⟨domain, rs⟩) ∧
      rs.Perm (owed net domain list) := by
  have hinit := Inv_init net domain list w tr
  have hreach := run_reachable net sched (steps list.length) (State.init domain list w tr)
  have hpc := run_returned sched (steps list.length) _ hinit
    (le_of_eq (measure_init domain list w tr))
  exact ⟨_, (reachable_body hreach).2 hpc⟩

/-! ## Lemmas on DNSCheck -/

theorem Get_eq_empty {v : Values} {key : String}
    (h : v.values key = [] ∨ (v.values key).head? = some "") : v.Get key = "" := by
  unfold Values.Get
  rcases h with h | h
  · rw [h]
  · cases hv : v.values key with
    | nil => rfl
    | cons x rest =>
      rw [hv] at h
      simpa using h

theorem start_missing (fs : FS) (r : Request) (tr : Trace) (h : r.Query.Get "domain" = "") :
    DNSCheck.start fs ResponseWriter.new r tr =
      Started.responded (writeJsonError prepared ⟨400, "you must provide the domain"⟩) tr := by
  simp only [DNSCheck.start, h, if_true]
  rfl

theorem start_open_error (fs : FS) (r : Request) (tr : Trace) (err : String)
    (h : r.Query.Get "domain" ≠ "") (hf : fs.files "./list.csv" = Except.error err) :
    DNSCheck.start fs ResponseWriter.new r tr =
      Started.responded (writeJsonError prepared ⟨500, err⟩) (tr ++ [Event.osOpen "./list.csv"]) := by
  simp only [DNSCheck.start, h, if_false, FS.Open, hf]
  rfl

theorem start_opened (fs : FS) (r : Request) (tr : Trace) (file : File)
    (h : r.Query.Get "domain" ≠ "") (hf : fs.files "./list.csv" = Except.ok file) :
    DNSCheck.start fs ResponseWriter.new r tr =
      match readDNSList file (tr ++ [Event.osOpen "./list.csv"]) with
      | ((_, some err), tr) => Started.responded (writeJsonError prepared ⟨500, err⟩) tr
      | ((list, none), tr) =>
        Started.fanOut (State.init (r.Query.Get "domain") list prepared tr) := by
  simp only [DNSCheck.start, h, if_false, FS.Open, hf]
  rfl

/-- A request with a domain is answered with a 500 error or with status 200
and a response. -/
theorem DNSCheck_with_domain (fs : FS) (net : Nat → Env) (sched : Nat → Nat) (r : Request)
    (h : r.Query.Get "domain" ≠ "") :
    (∃ err, (DNSCheck fs net sched ResponseWriter.new r).1 =
        writeJsonError prepared ⟨500, err⟩) ∨
    (∃ rs, (DNSCheck fs net sched ResponseWriter.new r).1 =
        (prepared.WriteHeader 200).Encode (Body.response ⟨r.Query.Get "domain", rs⟩)) := by
  unfold DNSCheck
  cases hf : fs.files "./list.csv" with
  | error err =>
    rw [start_open_error fs r [] err h hf]
    exact Or.inl ⟨err, rfl⟩
  | ok file =>
    rw [start_opened fs r [] file h hf]
    rcases hread : readDNSList file ([] ++ [Event.osOpen "./list.csv"]) with ⟨⟨list, err⟩, tr⟩
    cases err with
    | some err => exact Or.inl ⟨err, rfl⟩
    | none =>
      obtain ⟨rs, hrs, _⟩ := run_init net sched (r.Query.Get "domain") list prepared tr
      exact Or.inr ⟨rs, hrs⟩

/-- With a well-read list the handler answers with what the run of the fan-out ends in. -/
theorem DNSCheck_fanOut (fs : FS) (net : Nat → Env) (sched : Nat → Nat) (r : Request)
    (file : File) (list : List CheckServer)
    (h : r.Query.Get "domain" ≠ "") (hf : fs.files "./list.csv" = Except.ok file)
    (hl : (readDNSList file [Event.osOpen "./list.csv"]).1 = (list, none)) :
    ∃ rs, (DNSCheck fs net sched ResponseWriter.new r).1 =
        (prepared.WriteHeader 200).Encode (Body.response ⟨r.Query.Get "domain", rs⟩) ∧
      rs.Perm (owed net (r.Query.Get "domain") list) := by
  unfold DNSCheck
  rw [start_opened fs r [] file h hf]
  rcases hread : readDNSList file ([] ++ [Event.osOpen "./list.csv"]) with ⟨⟨list', err⟩, tr⟩
  have hl' : (list', err) = (list, none) := by
    have := congrArg Prod.fst hread
    simp only [List.nil_append] at this
    rw [this] at hl
    exact hl
  simp only [Prod.mk.injEq] at hl'
  obtain ⟨rfl, rfl⟩ := hl'
  exact run_init net sched (r.Query.Get "domain") list' prepared tr

/-! ## The claims -/

/-- C1: for every domain, endpoint list, behaviour of the network and
interleaving, the response of the fan-out has exactly as many entries as the
list has endpoints. In every reachable state the body holds nothing new or one
response with `list.length` entries; under every scheduler the run ends with
such a response; and the handler answers a request whose list is read as
`list` with such a response. -/
theorem DNSCheck_cardinality (net : Nat → Env) (domain : String) (list : List CheckServer)
    (w : ResponseWriter) (tr : Trace) :
    (∀ s, Reachable net (State.init domain list w tr) s →
      s.w.body = w.body ∨
        ∃ rs, s.w.body = w.body ++ [Body.response ⟨domain, rs⟩] ∧ rs.length = list.length) ∧
    (∀ sched, ∃ rs,
      (run net sched (steps list.length) (State.init domain list w tr)).w.body =
        w.body ++ [Body.response ⟨domain, rs⟩] ∧ rs.length = list.length) ∧
    (∀ (fs : FS) (sched : Nat → Nat) (r : Request) (file : File),
      r.Query.Get "domain" ≠ "" → fs.files "./list.csv" = Except.ok file →
      (readDNSList file [Event.osOpen "./list.csv"]).1 = (list, none) →
      ∃ rs, (DNSCheck fs net sched ResponseWriter.new r).1.body =
          [Body.response ⟨r.Query.Get "domain", rs⟩] ∧ rs.length = list.length) := by
  refine ⟨?_, ?_, ?_⟩
  · intro s hs
    have hb := reachable_body hs
    by_cases hpc : s.pc = MainPc.returned
    · obtain ⟨hw, hperm⟩ := hb.2 hpc
      refine Or.inr ⟨s.responses, ?_, ?_⟩
      · rw [hw]; rfl
      · rw [hperm.length_eq, owed_length]
    · exact Or.inl (hb.1 hpc)
  · intro sched
    obtain ⟨rs, hw, hperm⟩ := run_init net sched domain list w tr
    refine ⟨rs, ?_, ?_⟩
    · rw [hw]; rfl
    · rw [hperm.length_eq, owed_length]
  · intro fs sched r file hd hf hl
    obtain ⟨rs, hw, hperm⟩ := DNSCheck_fanOut fs net sched r file list hd hf hl
    refine ⟨rs, ?_, ?_⟩
    · rw [hw]; rfl
    · rw [hperm.length_eq, owed_length]

theorem DNSCheck_cardinality_witness :
    Reachable exampleNet (State.init "example.com" exampleList prepared []) exampleEnd ∧
      (∃ rs, exampleEnd.w.body = [Body.response ⟨"example.com", rs⟩] ∧ rs.length = 2) ∧
      (∃ rs, (run exampleNet firstReady (steps 0)
          (State.init "example.com" [] prepared [])).w.body =
        [Body.response ⟨"example.com", rs⟩] ∧ rs.length = 0) :=
  ⟨run_reachable _ _ _ _,
    ((DNSCheck_cardinality exampleNet "example.com" exampleList prepared []).1 exampleEnd
      (run_reachable _ _ _ _)).resolve_left (by decide),
    (DNSCheck_cardinality exampleNet "example.com" [] prepared []).2.1 firstReady⟩

/-- C2: for every domain, endpoint list and interleaving the entries of
`Responses` are a permutation of the outcomes owed, one per endpoint: the name
of the endpoint with what `resolveDomain` returns for its address to its
goroutine. This holds in every reachable state that shows a response, under
every scheduler at the end of the run, and for a network that treats every
goroutine alike the outcomes owed are the list mapped endpoint by endpoint. -/
theorem DNSCheck_mapping (net : Nat → Env) (domain : String) (list : List CheckServer)
    (w : ResponseWriter) (tr : Trace) :
    (∀ s r, Reachable net (State.init domain list w tr) s →
      s.w.body = w.body ++ [Body.response r] →
      r.Responses.Perm (list.enum.map (fun p =>
        (⟨p.2.Name, (resolveDomain (net p.1) domain p.2.IP []).1⟩ : DNSResponse)))) ∧
    (∀ sched, ∃ rs,
      (run net sched (steps list.length) (State.init domain list w tr)).w.body =
        w.body ++ [Body.response ⟨domain, rs⟩] ∧
      rs.Perm (list.enum.map (fun p =>
        (⟨p.2.Name, (resolveDomain (net p.1) domain p.2.IP []).1⟩ : DNSResponse)))) ∧
    (∀ env sched, ∃ rs,
      (run (fun _ => env) sched (steps list.length) (State.init domain list w tr)).w.body =
        w.body ++ [Body.response ⟨domain, rs⟩] ∧
      rs.Perm (list.map (fun e =>
        (⟨e.Name, (resolveDomain env domain e.IP []).1⟩ : DNSResponse)))) := by
  refine ⟨?_, ?_, ?_⟩
  · intro s r hs hbody
    have hb := reachable_body hs
    by_cases hpc : s.pc = MainPc.returned
    · obtain ⟨hw, hperm⟩ := hb.2 hpc
      rw [hw] at hbody
      simp only [ResponseWriter.Encode, ResponseWriter.WriteHeader, List.append_cancel_left_eq,
        List.cons.injEq, and_true, Body.response.injEq] at hbody
      rw [← hbody]
      exact hperm
    · have := hb.1 hpc
      rw [this] at hbody
      have hlen := congrArg List.length hbody
      simp at hlen
  · intro sched
    obtain ⟨rs, hw, hperm⟩ := run_init net sched domain list w tr
    exact ⟨rs, by rw [hw]; rfl, hperm⟩
  · intro env sched
    obtain ⟨rs, hw, hperm⟩ := run_init (fun _ => env) sched domain list w tr
    rw [owed_uniform] at hperm
    exact ⟨rs, by rw [hw]; rfl, hperm⟩

theorem DNSCheck_mapping_witness :
    Reachable exampleNet (State.init "example.com" exampleList prepared []) exampleEnd ∧
      exampleEnd.w.body =
        [Body.response ⟨"example.com", [⟨"B", "i/o timeout"⟩, ⟨"A", "93.184.216.34"⟩]⟩] ∧
      List.Perm [(⟨"B", "i/o timeout"⟩ : DNSResponse), ⟨"A", "93.184.216.34"⟩]
        (exampleList.enum.map (fun p =>
          (⟨p.2.Name, (resolveDomain (exampleNet p.1) "example.com" p.2.IP []).1⟩ :
            DNSResponse))) :=
  ⟨run_reachable _ _ _ _, by decide,
    (DNSCheck_mapping exampleNet "example.com" exampleList prepared []).1 exampleEnd
      ⟨"example.com", [⟨"B", "i/o timeout"⟩, ⟨"A", "93.184.216.34"⟩]⟩
      (run_reachable _ _ _ _) (by decide)⟩

/-- C9: join barrier. In every reachable state of the fan-out the response
writer is untouched unless all `list.length` goroutines have been started and
have ended, each having appended its outcome; and the body holds nothing new or
the complete `responses`. -/
theorem DNSCheck_join_barrier (net : Nat → Env) (domain : String) (list : List CheckServer)
    (w : ResponseWriter) (tr : Trace) (s : State)
    (h : Reachable net (State.init domain list w tr) s) :
    (s.w = w ∨
      (s.goroutines.length = list.length ∧ (∀ g ∈ s.goroutines, g.pc = GoPc.exited) ∧
        s.responses.length = list.length)) ∧
    (s.w.body = w.body ∨
      (s.w.body = w.body ++ [Body.response ⟨domain, s.responses⟩] ∧
        s.responses.length = list.length)) := by
  have hinv := Inv_reachable h
  have hw := hinv.writer
  have hb := reachable_body h
  constructor
  · by_cases hpc : s.pc = MainPc.writeHeader ∨ s.pc = MainPc.encode ∨ s.pc = MainPc.returned
    · obtain ⟨h1, h2, h3⟩ := hinv.complete hpc
      refine Or.inr ⟨h1, h2, ?_⟩
      have := h3.length_eq
      simpa using this
    · left
      rw [hw]
      cases hs : s.pc <;> simp [hs] at hpc ⊢
  · by_cases hpc : s.pc = MainPc.returned
    · obtain ⟨hw', hperm⟩ := hb.2 hpc
      refine Or.inr ⟨by rw [hw']; rfl, ?_⟩
      rw [hperm.length_eq, owed_length]
    · exact Or.inl (hb.1 hpc)

theorem DNSCheck_join_barrier_witness :
    Reachable exampleNet (State.init "example.com" exampleList prepared []) exampleMiddle ∧
      exampleMiddle.responses = [⟨"A", "93.184.216.34"⟩] ∧ exampleMiddle.w = prepared :=
  ⟨run_reachable _ _ _ _, by decide,
    (DNSCheck_join_barrier exampleNet "example.com" exampleList prepared [] exampleMiddle
      (run_reachable _ _ _ _)).1.resolve_right (by decide)⟩

/-- C3 (the code where the claim fails): the resolver answers the question for
`www.example.com` with one alias record and no address record; `resolveDomain`
returns the empty string, not `"no results"`. -/
theorem resolveDomain_alias_only :
    cnameEnv.reply ⟨1000000000⟩ (query cnameEnv "www.example.com") ("192.0.2.1" ++ ":53") =
        Except.ok cnameReply ∧
      addresses cnameReply.Answer = [] ∧
      (resolveDomain cnameEnv "www.example.com" "192.0.2.1" []).1 = "" ∧
      (resolveDomain cnameEnv "www.example.com" "192.0.2.1" []).1 ≠ "no results" :=
  ⟨rfl, by decide, by decide, by decide⟩

/-- C4: when the exchange succeeds and the reply holds one or more address
records, `resolveDomain` returns the textual forms of exactly those addresses,
in the order of the answer section, joined with `", "`. -/
theorem resolveDomain_joins_addresses (env : Env) (domain server : String) (tr : Trace)
    (r : Msg)
    (hok : env.reply ⟨1 * Second⟩
      (Msg.SetQuestion ⟨0, false, [], []⟩ env (domain ++ ".") TypeA) (server ++ ":53") =
        Except.ok r)
    (hA : addresses r.Answer ≠ []) :
    (resolveDomain env domain server tr).1 =
      ", ".intercalate ((addresses r.Answer).map IP.String) := by
  have hok' : env.reply ⟨1000000000⟩ (query env domain) (server ++ ":53") = Except.ok r := hok
  rw [resolveDomain_result, hok']
  have hne : r.Answer ≠ [] := by
    intro h
    rw [h] at hA
    exact hA rfl
  simp [hne]

theorem resolveDomain_joins_addresses_witness :
    addresses exampleReply.Answer = [IP.v4 93 184 216 34] ∧
      (resolveDomain exampleEnv "example.com" "127.0.0.1" []).1 = "93.184.216.34" :=
  ⟨by decide,
    (resolveDomain_joins_addresses exampleEnv "example.com" "127.0.0.1" [] exampleReply rfl
      (by decide)).trans (by decide)⟩

/-- C5: when the exchange fails, `resolveDomain` returns exactly the
description of the failure; it is a total function into strings, so nothing is
raised to the caller. -/
theorem resolveDomain_error (env : Env) (domain server : String) (tr : Trace) (err : String)
    (herr : env.reply ⟨1 * Second⟩
      (Msg.SetQuestion ⟨0, false, [], []⟩ env (domain ++ ".") TypeA) (server ++ ":53") =
        Except.error err) :
    (resolveDomain env domain server tr).1 = err := by
  have herr' : env.reply ⟨1000000000⟩ (query env domain) (server ++ ":53") =
      Except.error err := herr
  rw [resolveDomain_result, herr']

theorem resolveDomain_error_witness :
    (resolveDomain timeoutEnv "example.com" "192.0.2.1" []).1 = "i/o timeout" :=
  resolveDomain_error timeoutEnv "example.com" "192.0.2.1" [] "i/o timeout" rfl

/-- C10: `resolveDomain` performs exactly one exchange: to what was done before
it adds one call of `Exchange`, by a client whose timeout is one second
(1000000000 ns), of a message with the single question for the A records
(type 1, class INET) of the domain followed by a dot, to the server followed
by `":53"`. -/
theorem resolveDomain_single_exchange (env : Env) (domain server : String) (tr : Trace) :
    (resolveDomain env domain server tr).2 =
      tr ++ [Event.exchange
        ⟨⟨1000000000⟩, ⟨env.id % 65536, true, [⟨domain ++ ".", 1, 1⟩], []⟩, server ++ ":53"⟩] :=
  resolveDomain_trace env domain server tr

/-- C6: a request whose parameter `domain` is absent or empty is answered with
status 400 and the error structure with code 400, and nothing is done to the
outside world: no file is opened or read and no exchange takes place; a request
with a non-empty domain is never answered with status 400 or an error structure
with code 400. -/
theorem DNSCheck_missing_domain (fs : FS) (net : Nat → Env) (sched : Nat → Nat)
    (r : Request) :
    (r.Query.values "domain" = [] ∨ (r.Query.values "domain").head? = some "" →
      DNSCheck fs net sched ResponseWriter.new r =
        (⟨[("Access-Control-Allow-Origin", "*"), ("Content-Type", "application/json")],
          some 400, [Body.jsonError ⟨400, "you must provide the domain"⟩]⟩, [])) ∧
    (r.Query.Get "domain" ≠ "" →
      (DNSCheck fs net sched ResponseWriter.new r).1.status ≠ some 400 ∧
      ∀ m, Body.jsonError ⟨400, m⟩ ∉ (DNSCheck fs net sched ResponseWriter.new r).1.body) := by
  constructor
  · intro h
    unfold DNSCheck
    rw [start_missing fs r [] (Get_eq_empty h)]
    rfl
  · intro h
    rcases DNSCheck_with_domain fs net sched r h with ⟨err, he⟩ | ⟨rs, hr⟩
    · rw [he]
      simp [writeJsonError, ResponseWriter.WriteHeader, ResponseWriter.Encode, prepared]
    · rw [hr]
      simp [ResponseWriter.WriteHeader, ResponseWriter.Encode, prepared]

theorem DNSCheck_missing_domain_witness :
    DNSCheck ⟨fun _ => Except.ok exampleFile⟩ exampleNet firstReady ResponseWriter.new
        bareRequest =
      (⟨[("Access-Control-Allow-Origin", "*"), ("Content-Type", "application/json")],
        some 400, [Body.jsonError ⟨400, "you must provide the domain"⟩]⟩, []) ∧
    (DNSCheck ⟨fun _ => Except.ok exampleFile⟩ exampleNet firstReady ResponseWriter.new
        exampleRequest).1.status ≠ some 400 :=
  ⟨(DNSCheck_missing_domain ⟨fun _ => Except.ok exampleFile⟩ exampleNet firstReady
      bareRequest).1 (Or.inl rfl),
    ((DNSCheck_missing_domain ⟨fun _ => Except.ok exampleFile⟩ exampleNet firstReady
      exampleRequest).2 (by decide)).1⟩

/-- C7: when some record of the endpoint list has fewer than two fields or
fails to parse, `readDNSList` returns the error "could not parse dns list"
whatever precedes or follows the record, and `DNSCheck` answers with status 500
and the error structure with code 500 and that description; no exchange takes
place and no response with outcomes is written. -/
theorem DNSCheck_malformed_list (fs : FS) (net : Nat → Env) (sched : Nat → Nat)
    (r : Request) (file : File)
    (hd : r.Query.Get "domain" ≠ "") (hf : fs.files "./list.csv" = Except.ok file)
    (hbad : ∃ res ∈ file.pending, res.err ≠ none ∨ res.record.length < 2) :
    (∀ tr, (readDNSList file tr).1.2 = some "could not parse dns list") ∧
    (DNSCheck fs net sched ResponseWriter.new r).1 =
      ⟨[("Access-Control-Allow-Origin", "*"), ("Content-Type", "application/json")],
        some 500, [Body.jsonError ⟨500, "could not parse dns list"⟩]⟩ ∧
    (∀ c, Event.exchange c ∉ (DNSCheck fs net sched ResponseWriter.new r).2) := by
  have hread : ∀ tr, (readDNSList file tr).1.2 = some "could not parse dns list" := by
    intro tr
    exact readDNSList_loop_bad file.name file.pending [] tr hbad
  refine ⟨hread, ?_⟩
  unfold DNSCheck
  rw [start_opened fs r [] file hd hf]
  have h2 := hread ([] ++ [Event.osOpen "./list.csv"])
  have htr := readDNSList_loop_trace file.name file.pending [] ([] ++ [Event.osOpen "./list.csv"])
  rcases hres : readDNSList file ([] ++ [Event.osOpen "./list.csv"]) with ⟨⟨list, err⟩, tr⟩
  rw [hres] at h2
  simp only at h2
  subst h2
  refine ⟨rfl, ?_⟩
  intro c hc
  have hres' : readDNSList.loop ⟨file.name, file.pending⟩ [] ([] ++ [Event.osOpen "./list.csv"])
      = ((list, some "could not parse dns list"), tr) := hres
  rw [hres'] at htr
  rcases htr _ hc with h | h
  · simp at h
  · cases h

theorem DNSCheck_malformed_list_witness :
    (DNSCheck ⟨fun _ => Except.ok badFile⟩ exampleNet firstReady ResponseWriter.new
        exampleRequest).1 =
      ⟨[("Access-Control-Allow-Origin", "*"), ("Content-Type", "application/json")],
        some 500, [Body.jsonError ⟨500, "could not parse dns list"⟩]⟩ :=
  (DNSCheck_malformed_list ⟨fun _ => Except.ok badFile⟩ exampleNet firstReady exampleRequest
    badFile (by decide) rfl
    ⟨⟨["B"], some "record on line 2: wrong number of fields"⟩, by simp [badFile],
      Or.inl (by simp)⟩).2.1

/-- C8: on a well-formed input (every record is read without error and has at
least two fields) `readDNSList` succeeds with one `CheckServer` per record, in
the order of the records, whose `Name` is the first field and whose `IP` is the
second field, both without leading and trailing white space; without records
the list is empty. -/
theorem readDNSList_wellformed (input : File) (tr : Trace)
    (h : ∀ res ∈ input.pending, res.err = none ∧ 2 ≤ res.record.length) :
    (readDNSList input tr).1 =
      (input.pending.map (fun res =>
        ⟨TrimSpace (res.record.getD 0 ""), TrimSpace (res.record.getD 1 "")⟩), none) ∧
    (∀ res ∈ input.pending,
      IsTrimOf (res.record.getD 0 "") (TrimSpace (res.record.getD 0 "")) ∧
      IsTrimOf (res.record.getD 1 "") (TrimSpace (res.record.getD 1 ""))) := by
  constructor
  · have := readDNSList_loop_ok input.name input.pending [] tr h
    simpa [readDNSList, NewReader] using this
  · intro res _
    exact ⟨TrimSpace_isTrimOf _, TrimSpace_isTrimOf _⟩

theorem readDNSList_wellformed_witness :
    (readDNSList exampleFile []).1 = ([⟨"A", "127.0.0.1"⟩, ⟨"B", "192.0.2.1"⟩], none) ∧
      (readDNSList ⟨"./list.csv", []⟩ []).1 = ([], none) :=
  ⟨((readDNSList_wellformed exampleFile [] (by decide)).1).trans (by decide),
    (readDNSList_wellformed ⟨"./list.csv", []⟩ [] (by simp)).1⟩

end dnscheck
